import Mathlib

/-!
Shallow embedding of the documentation image-reference analyzer
(`scripts/analyze-documentation.js`): pattern-based categorization and
legacy-branding flagging of image paths, regex-scan extraction of image
references from markdown text, and report aggregation.

JavaScript strings are modelled as `String`/`List Char`; the case-insensitive
literal regex patterns (e.g. `/cockpit/i` tested against an already lowercased
path) are modelled as substring tests on the lowercased path; lowercasing is
ASCII `Char.toLower`, which agrees with JS `toLowerCase` on the ASCII paths
this tool processes.
-/

namespace AnalyzeDocs

/-- JS `s.toLowerCase()` on a char list (ASCII range). -/
def lowerL (l : List Char) : List Char := l.map Char.toLower

/-- Substring containment: does `pat` occur contiguously inside `hay`? -/
def containsSub (pat : List Char) : List Char → Bool
  | [] => pat.isEmpty
  | c :: rest => pat.isPrefixOf (c :: rest) || containsSub pat rest

/-- One case-insensitive literal pattern tested against the lowercased path:
`/lit/i.test(pathLower)` is substring containment of `lit` in `pathLower`. -/
def patTest (pathLower : List Char) (pat : String) : Bool :=
  containsSub pat.toList pathLower

/-- `CAMUNDA_PATTERNS`: patterns that indicate Camunda-specific screenshots. -/
def CAMUNDA_PATTERNS : List String :=
  ["camunda", "cockpit", "tasklist", "admin-", "webapp", "dashboard",
   "process-definition", "process-instance", "decision-", "task-",
   "filter-", "batch", "migration", "cleanup"]

/-- `CATEGORIES`: ordered (category, pattern list) pairs, in the object's
insertion order, descriptions omitted. -/
def CATEGORIES : List (String × List String) :=
  [("cockpit", ["cockpit", "dashboard", "process-", "decision-", "batch",
                "migration", "heatmap"]),
   ("tasklist", ["tasklist", "task-", "filter", "form"]),
   ("admin", ["admin-", "user", "group", "tenant", "authorization", "system"]),
   ("welcome", ["welcome", "profile"]),
   ("modeler", ["modeler", "diagram", "bpmn-"]),
   ("other", [])]

/-- Does any of the category's patterns match the lowercased path?
(the body of the inner `for` loop of `categorizeScreenshot`). -/
def catMatches (pathLower : List Char) (c : String × List String) : Bool :=
  c.2.any (patTest pathLower)

/-- `categorizeScreenshot(imagePath)`: first category (in `CATEGORIES` order)
with a matching pattern, else `other`. -/
def categorizeScreenshot (imagePath : String) : String :=
  let pathLower := lowerL imagePath.toList
  match CATEGORIES.find? (catMatches pathLower) with
  | some c => c.1
  | none => "other"

/-- `isCamundaSpecific(imagePath)`: does the lowercased path match any of
`CAMUNDA_PATTERNS`? -/
def isCamundaSpecific (imagePath : String) : Bool :=
  let pathLower := lowerL imagePath.toList
  CAMUNDA_PATTERNS.any (patTest pathLower)

/-- JS `s.split('\n')`: the list of newline-separated segments; splitting the
empty string gives one empty segment. -/
def jsSplit : List Char → List (List Char)
  | [] => [[]]
  | c :: rest =>
    if c = '\n' then [] :: jsSplit rest
    else
      match jsSplit rest with
      | [] => [[c]]
      | g :: gs => (c :: g) :: gs

/-- `content.substring(0, idx).split('\n').length`: the 1-based line number of
character offset `idx` in `content`. -/
def lineNumberAt (content : List Char) (idx : Nat) : Nat :=
  (jsSplit (content.take idx)).length

/-- Node `path.extname` (posix): the extension of the basename, from its last
dot to the end; empty when the basename has no dot, when its only leading
character is the dot, or for `..`; trailing slashes are ignored. Computed on
the reversed character list. -/
def extname (p : String) : String :=
  let r := p.toList.reverse.dropWhile (· = '/')
  let b := r.takeWhile (· ≠ '/')
  let t := b.takeWhile (· ≠ '.')
  if t.length = b.length then ""
  else if t.length + 1 = b.length then ""
  else if b = ['.', '.'] then ""
  else ('.' :: t.reverse).asString

/-- The recognized image extensions of the markdown-form filter. -/
def imageExts : List String := [".png", ".jpg", ".jpeg", ".gif", ".svg", ".webp"]

/-- JS `s.startsWith(pre)`. -/
def startsWithStr (s pre : String) : Bool := pre.toList.isPrefixOf s.toList

/-- JS `s.toLowerCase()` as a `String` (ASCII range). -/
def lowerStr (s : String) : String := (lowerL s.toList).asString

/-! ### The two regex scans of `extractImageReferences`

`mdRegex = /!\[([^\]]*)\]\(([^)]+)\)/g` and
`htmlRegex = /<img[^>]+src=["']([^"']+)["'][^>]*>/g`, each run as a JS
`exec` loop: repeatedly find the leftmost match starting at or after the end
of the previous one. Both regexes are modelled by a deterministic
try-match-at-one-position function plus a generic left-to-right scanner.
Inside the character classes every quantifier is bounded by an excluded
terminator character, so greedy matching is take-the-maximal-run except for
the `[^>]+` between `<img` and `src=`, whose greedy backtracking selects the
largest feasible run length. -/

/-- Try `!\[([^\]]*)\]\(([^)]+)\)` at the head of `s`; on success return
`(alt capture, path capture, total match length)`. -/
def mdMatchAt : List Char → Option ((List Char × List Char) × Nat)
  | '!' :: '[' :: rest =>
    let alt := rest.takeWhile (· ≠ ']')
    match rest.dropWhile (· ≠ ']') with
    | ']' :: '(' :: rest2 =>
      let p := rest2.takeWhile (· ≠ ')')
      if p.isEmpty then none
      else
        match rest2.dropWhile (· ≠ ')') with
        | ')' :: _ => some ((alt, p), alt.length + p.length + 5)
        | _ => none
    | _ => none
  | _ => none

/-- Try `src=["']([^"']+)["'][^>]*>` at the head of `t`; on success return
`(src capture, length consumed)`. The closing quote need not equal the
opening one (the class `["']` matches either). -/
def srcTailMatch : List Char → Option (List Char × Nat)
  | 's' :: 'r' :: 'c' :: '=' :: q :: t2 =>
    if q = '"' ∨ q = '\'' then
      let cap := t2.takeWhile (fun c => c ≠ '"' ∧ c ≠ '\'')
      if cap.isEmpty then none
      else
        match t2.dropWhile (fun c => c ≠ '"' ∧ c ≠ '\'') with
        | q2 :: t3 =>
          if q2 = '"' ∨ q2 = '\'' then
            let trail := t3.takeWhile (· ≠ '>')
            match t3.dropWhile (· ≠ '>') with
            | '>' :: _ => some (cap, cap.length + trail.length + 7)
            | _ => none
          else none
        | [] => none
    else none
  | _ => none

/-- Greedy backtracking of the `[^>]+` between `<img` and `src=`: try the run
lengths `k, k-1, …, 1` and keep the first (largest) for which the source tail
matches from position `k` of `rest`. -/
def findSrcFrom : Nat → List Char → Option (Nat × List Char × Nat)
  | 0, _ => none
  | k + 1, rest =>
    match srcTailMatch (rest.drop (k + 1)) with
    | some (cap, tlen) => some (k + 1, cap, tlen)
    | none => findSrcFrom k rest

/-- Try `<img[^>]+src=["']([^"']+)["'][^>]*>` at the head of `s`; on success
return `(src capture, total match length)`. The `[^>]+` run is confined to
the maximal `>`-free span after `<img`. -/
def htmlMatchAt : List Char → Option (List Char × Nat)
  | '<' :: 'i' :: 'm' :: 'g' :: rest =>
    let run := rest.takeWhile (· ≠ '>')
    (findSrcFrom run.length rest).map fun x => (x.2.1, x.1 + x.2.2 + 4)
  | _ => none

/-- Generic `exec`-loop scanner: walk the text left to right from absolute
index `i`; at a match emit `(index, captures, length)` and resume after its
end, otherwise advance one character. `fuel` (initially the text length, an
upper bound on the number of steps since every step consumes at least one
character) makes the recursion structural. -/
def scanAux (m : List Char → Option (α × Nat)) :
    Nat → List Char → Nat → List (Nat × α × Nat)
  | 0, _, _ => []
  | _ + 1, [], _ => []
  | fuel + 1, c :: rest, i =>
    match m (c :: rest) with
    | some (a, len) => (i, a, len) :: scanAux m fuel ((c :: rest).drop len) (i + len)
    | none => scanAux m fuel rest (i + 1)

/-- One match of the markdown-image regex: start index, total length, and the
two captures. -/
structure MdMatch where
  idx : Nat
  len : Nat
  alt : List Char
  path : List Char
deriving DecidableEq

/-- One match of the HTML img-tag regex: start index, total length, and the
src capture. -/
structure HtmlMatch where
  idx : Nat
  len : Nat
  path : List Char
deriving DecidableEq

/-- All matches of `mdRegex` over the content, in scan order. -/
def mdMatches (cs : List Char) : List MdMatch :=
  (scanAux mdMatchAt cs.length cs 0).map
    (fun x => ⟨x.1, x.2.2, x.2.1.1, x.2.1.2⟩)

/-- All matches of `htmlRegex` over the content, in scan order. -/
def htmlMatches (cs : List Char) : List HtmlMatch :=
  (scanAux htmlMatchAt cs.length cs 0).map (fun x => ⟨x.1, x.2.2, x.2.1⟩)

/-- One element of the `images` array built by `extractImageReferences`. -/
structure ImageReference where
  alt : String
  path : String
  fullMatch : String
  sourceFile : String
  lineNumber : Nat
deriving DecidableEq

/-- The object pushed for a markdown-image match. -/
def mkMdRef (content : String) (filePath : String) (m : MdMatch) :
    ImageReference :=
  { alt := m.alt.asString
    path := m.path.asString
    fullMatch := ((content.toList.drop m.idx).take m.len).asString
    sourceFile := filePath
    lineNumber := lineNumberAt content.toList m.idx }

/-- The object pushed for an HTML img-tag match (alt is always empty). -/
def mkHtmlRef (content : String) (filePath : String) (m : HtmlMatch) :
    ImageReference :=
  { alt := ""
    path := m.path.asString
    fullMatch := ((content.toList.drop m.idx).take m.len).asString
    sourceFile := filePath
    lineNumber := lineNumberAt content.toList m.idx }

/-- The keep-condition of the markdown-image loop: not an external URL, and a
recognized (lowercased) image extension. -/
def mdKeep (m : MdMatch) : Bool :=
  !(startsWithStr m.path.asString "http://" ||
    startsWithStr m.path.asString "https://") &&
  imageExts.contains (lowerStr (extname m.path.asString))

/-- The keep-condition of the HTML img-tag loop: the src does not start with
`http` (no extension filter). -/
def htmlKeep (m : HtmlMatch) : Bool :=
  !(startsWithStr m.path.asString "http")

/-- The references pushed by the markdown-image `while` loop: skip paths
starting with `http://` or `https://`, keep only recognized (lowercased)
image extensions. -/
def mdRefs (content : String) (filePath : String) : List ImageReference :=
  (mdMatches content.toList).filterMap fun m =>
    let imagePath := m.path.asString
    if startsWithStr imagePath "http://" || startsWithStr imagePath "https://" then
      none
    else if imageExts.contains (lowerStr (extname imagePath)) then
      some (mkMdRef content filePath m)
    else none

/-- The references pushed by the HTML img-tag `while` loop: skip paths
starting with `http`; no extension filter; empty alt. -/
def htmlRefs (content : String) (filePath : String) : List ImageReference :=
  (htmlMatches content.toList).filterMap fun m =>
    if startsWithStr m.path.asString "http" then none
    else some (mkHtmlRef content filePath m)

/-- `extractImageReferences(content, filePath)`: the markdown-loop references
followed by the HTML-loop references, in the order pushed. -/
def extractImageReferences (content : String) (filePath : String) :
    List ImageReference :=
  mdRefs content filePath ++ htmlRefs content filePath

/-! ### Classification and report aggregation (`analyzeFile` / `generateReport`) -/

/-- An image reference after `analyzeFile` spreads in its classification:
`{...img, category: categorizeScreenshot(img.path), needsReplacement:
isCamundaSpecific(img.path)}`. `generateReport` consumes any list of these. -/
structure ClassifiedImage where
  alt : String
  path : String
  fullMatch : String
  sourceFile : String
  lineNumber : Nat
  category : String
  needsReplacement : Bool
deriving DecidableEq, Inhabited

/-- The pure mapping step of `analyzeFile` (after the file read). -/
def classifyImages (imgs : List ImageReference) : List ClassifiedImage :=
  imgs.map fun img =>
    { alt := img.alt
      path := img.path
      fullMatch := img.fullMatch
      sourceFile := img.sourceFile
      lineNumber := img.lineNumber
      category := categorizeScreenshot img.path
      needsReplacement := isCamundaSpecific img.path }

/-- One step of building `report.byCategory`: push `img` onto the list at key
`img.category`, creating the key at the end on first appearance. A JS object
holds at most one entry per key and keeps insertion order, so it is modelled
as an association list updated at the (unique) matching key. -/
def pushByCategory : List (String × List ClassifiedImage) → ClassifiedImage →
    List (String × List ClassifiedImage)
  | [], img => [(img.category, [img])]
  | g :: gs, img =>
    if g.1 = img.category then (g.1, g.2 ++ [img]) :: gs
    else g :: pushByCategory gs img

/-- `report.byCategory`: the images grouped by their `category` field, keys in
order of first appearance. -/
def groupByCategory (imgs : List ClassifiedImage) :
    List (String × List ClassifiedImage) :=
  imgs.foldl pushByCategory []

/-- One row of `report.summary.byCategory`. -/
structure CategoryStats where
  total : Nat
  needsReplacement : Nat
deriving DecidableEq

/-- One element of `report.replacementPlan`: the distinct image path, the
category of its first flagged reference, and one `(file, line)` location per
flagged reference to it. -/
structure PlanEntry where
  imagePath : String
  category : String
  referencedIn : List (String × Nat)
deriving DecidableEq

/-- The report built by `generateReport`. -/
structure Report where
  total : Nat
  needsReplacement : Nat
  byCategory : List (String × List ClassifiedImage)
  byCategoryStats : List (String × CategoryStats)
  replacementPlan : List PlanEntry
deriving DecidableEq

/-- Fuel-based worker for `jsSetDedup`: keep the head, drop its later
duplicates, recurse. `fuel` (initially the list length, an upper bound on
the number of steps since each step strictly shrinks the list) makes the
recursion structural. -/
def jsSetDedupAux : Nat → List String → List String
  | 0, _ => []
  | _ + 1, [] => []
  | fuel + 1, x :: xs => x :: jsSetDedupAux fuel (xs.filter (· ≠ x))

/-- JS `[...new Set(l)]`: deduplicate keeping the first occurrence of each
element, in first-occurrence order. -/
def jsSetDedup (l : List String) : List String := jsSetDedupAux l.length l

theorem jsSetDedupAux_congr (fuel : Nat) :
    ∀ (fuel' : Nat) (l : List String), l.length ≤ fuel → l.length ≤ fuel' →
      jsSetDedupAux fuel l = jsSetDedupAux fuel' l := by
  induction fuel with
  | zero =>
    intro fuel' l h1 _
    have : l = [] := List.length_eq_zero.mp (Nat.le_zero.mp h1)
    subst this
    cases fuel' <;> rfl
  | succ fuel ih =>
    intro fuel' l h1 h2
    cases l with
    | nil => cases fuel' <;> rfl
    | cons x xs =>
      cases fuel' with
      | zero => simp at h2
      | succ fuel'' =>
        simp only [jsSetDedupAux, List.cons.injEq, true_and]
        exact ih fuel'' (xs.filter (· ≠ x))
          (Nat.le_trans (xs.length_filter_le _) (by simpa using h1))
          (Nat.le_trans (xs.length_filter_le _) (by simpa using h2))

/-- The recursion equation of `jsSetDedup`. -/
theorem jsSetDedup_cons (x : String) (xs : List String) :
    jsSetDedup (x :: xs) = x :: jsSetDedup (xs.filter (· ≠ x)) := by
  unfold jsSetDedup
  simp only [List.length_cons, jsSetDedupAux, List.cons.injEq, true_and]
  exact jsSetDedupAux_congr _ _ _ (xs.length_filter_le _) (Nat.le_refl _)

/-- `generateReport(allImages)`. `references[0]` on the (always nonempty)
per-path filter is modelled by `headD default`; the default is unreachable
because every deduplicated path comes from a flagged reference. -/
def generateReport (allImages : List ClassifiedImage) : Report :=
  let byCat := groupByCategory allImages
  let toReplace := allImages.filter (·.needsReplacement)
  let uniquePaths := jsSetDedup (toReplace.map (·.path))
  { total := allImages.length
    needsReplacement := (allImages.filter (·.needsReplacement)).length
    byCategory := byCat
    byCategoryStats := byCat.map fun g =>
      (g.1, ⟨g.2.length, (g.2.filter (·.needsReplacement)).length⟩)
    replacementPlan := uniquePaths.map fun imagePath =>
      let references := toReplace.filter (·.path = imagePath)
      { imagePath := imagePath
        category := (references.headD default).category
        referencedIn := references.map fun r => (r.sourceFile, r.lineNumber) } }

/-! ### Helper lemmas -/

theorem jsSplit_ne_nil (l : List Char) : jsSplit l ≠ [] := by
  induction l with
  | nil => simp [jsSplit]
  | cons c rest ih =>
    simp only [jsSplit]
    split
    · simp
    · cases h : jsSplit rest with
      | nil => simp
      | cons g gs => simp

theorem jsSplit_length (l : List Char) :
    (jsSplit l).length = l.count '\n' + 1 := by
  induction l with
  | nil => simp [jsSplit]
  | cons c rest ih =>
    simp only [jsSplit]
    split
    · rename_i hc
      subst hc
      simp [List.count_cons, ih]
    · rename_i hc
      cases h : jsSplit rest with
      | nil => exact absurd h (jsSplit_ne_nil rest)
      | cons g gs =>
        rw [h] at ih
        simp only [List.length_cons] at ih ⊢
        rw [List.count_cons]
        simp [hc, ih]

theorem lineNumberAt_eq_count (content : List Char) (idx : Nat) :
    lineNumberAt content idx = (content.take idx).count '\n' + 1 :=
  jsSplit_length _

/-- A two-branch skip/keep `filterMap` is a `filter` followed by a `map`. -/
theorem filterMap_skip_keep {α β : Type} (p q : α → Bool) (f : α → β)
    (l : List α) :
    (l.filterMap fun a => if p a then none else if q a then some (f a) else none)
      = (l.filter fun a => !p a && q a).map f := by
  induction l with
  | nil => rfl
  | cons a l ih =>
    simp only [List.filterMap_cons, List.filter_cons]
    cases hp : p a <;> cases hq : q a <;> simp [hp, hq, ih]

/-- A one-branch skip `filterMap` is a `filter` followed by a `map`. -/
theorem filterMap_skip {α β : Type} (p : α → Bool) (f : α → β) (l : List α) :
    (l.filterMap fun a => if p a then none else some (f a))
      = (l.filter fun a => !p a).map f := by
  induction l with
  | nil => rfl
  | cons a l ih =>
    simp only [List.filterMap_cons, List.filter_cons]
    cases hp : p a <;> simp [hp, ih]

theorem mdRefs_eq (content filePath : String) :
    mdRefs content filePath
      = ((mdMatches content.toList).filter mdKeep).map
          (mkMdRef content filePath) := by
  unfold mdRefs
  rw [filterMap_skip_keep]
  rfl

theorem htmlRefs_eq (content filePath : String) :
    htmlRefs content filePath
      = ((htmlMatches content.toList).filter htmlKeep).map
          (mkHtmlRef content filePath) := by
  unfold htmlRefs
  rw [filterMap_skip]
  rfl

/-- Every match the scanner emits from absolute index `i` starts at or after
`i`, and (when each match consumes at least one character) the emitted start
indices are strictly increasing. -/
theorem scanAux_bound_pairwise {α : Type} (m : List Char → Option (α × Nat))
    (hm : ∀ s a len, m s = some (a, len) → 1 ≤ len) :
    ∀ (fuel : Nat) (s : List Char) (i : Nat),
      (∀ x ∈ scanAux m fuel s i, i ≤ x.1) ∧
      List.Pairwise (· < ·) ((scanAux m fuel s i).map (·.1)) := by
  intro fuel
  induction fuel with
  | zero => intro s i; simp [scanAux]
  | succ fuel ih =>
    intro s i
    cases s with
    | nil => simp [scanAux]
    | cons c rest =>
      simp only [scanAux]
      cases hms : m (c :: rest) with
      | none =>
        refine ⟨fun x hx => ?_, (ih rest (i + 1)).2⟩
        have := (ih rest (i + 1)).1 x hx
        omega
      | some al =>
        obtain ⟨a, len⟩ := al
        have hlen : 1 ≤ len := hm _ _ _ hms
        constructor
        · intro x hx
          rcases List.mem_cons.mp hx with rfl | hx
          · exact Nat.le_refl i
          · have := (ih _ (i + len)).1 x hx
            omega
        · simp only [List.map_cons]
          refine List.pairwise_cons.mpr ⟨fun b hb => ?_, (ih _ (i + len)).2⟩
          obtain ⟨y, hy, rfl⟩ := List.mem_map.mp hb
          have := (ih _ (i + len)).1 y hy
          omega

/-- A markdown-image match consumes at least one character. -/
theorem mdMatchAt_len_pos {s : List Char} {a : List Char × List Char}
    {len : Nat} (h : mdMatchAt s = some (a, len)) : 1 ≤ len := by
  unfold mdMatchAt at h
  repeat' split at h
  all_goals simp_all
  all_goals omega

/-- An HTML img-tag match consumes at least one character. -/
theorem htmlMatchAt_len_pos {s : List Char} {a : List Char} {len : Nat}
    (h : htmlMatchAt s = some (a, len)) : 1 ≤ len := by
  unfold htmlMatchAt at h
  split at h
  · rw [Option.map_eq_some'] at h
    obtain ⟨⟨k, cap, tlen⟩, -, heq⟩ := h
    obtain ⟨-, rfl⟩ := Prod.mk.injEq .. ▸ heq
    omega
  · exact absurd h (by simp)

/-- The markdown matches are reported in strictly increasing start order. -/
theorem mdMatches_idx_pairwise (cs : List Char) :
    List.Pairwise (· < ·) ((mdMatches cs).map (·.idx)) := by
  have h := (scanAux_bound_pairwise mdMatchAt
    (fun _ _ _ hx => mdMatchAt_len_pos hx) cs.length cs 0).2
  have heq : (mdMatches cs).map (·.idx)
      = (scanAux mdMatchAt cs.length cs 0).map (·.1) := by
    unfold mdMatches
    rw [List.map_map]
    rfl
  rw [heq]
  exact h

/-- The HTML img-tag matches are reported in strictly increasing start order. -/
theorem htmlMatches_idx_pairwise (cs : List Char) :
    List.Pairwise (· < ·) ((htmlMatches cs).map (·.idx)) := by
  have h := (scanAux_bound_pairwise htmlMatchAt
    (fun _ _ _ hx => htmlMatchAt_len_pos hx) cs.length cs 0).2
  have heq : (htmlMatches cs).map (·.idx)
      = (scanAux htmlMatchAt cs.length cs 0).map (·.1) := by
    unfold htmlMatches
    rw [List.map_map]
    rfl
  rw [heq]
  exact h

theorem mem_of_mem_jsSetDedup {x : String} :
    ∀ {l : List String}, x ∈ jsSetDedup l → x ∈ l
  | [], h => by simp [jsSetDedup, jsSetDedupAux] at h
  | y :: ys, h => by
    rw [jsSetDedup_cons] at h
    rcases List.mem_cons.mp h with rfl | h
    · exact List.mem_cons_self _ _
    · exact List.mem_cons_of_mem _ (List.mem_of_mem_filter (mem_of_mem_jsSetDedup h))
termination_by l => l.length
decreasing_by
  simp only [List.length_cons]
  exact Nat.lt_succ_of_le (ys.length_filter_le _)

theorem mem_jsSetDedup_of_mem {x : String} :
    ∀ {l : List String}, x ∈ l → x ∈ jsSetDedup l
  | [], h => by simp at h
  | y :: ys, h => by
    rw [jsSetDedup_cons]
    rcases List.mem_cons.mp h with rfl | h
    · exact List.mem_cons_self _ _
    · by_cases hxy : x = y
      · exact hxy ▸ List.mem_cons_self _ _
      · exact List.mem_cons_of_mem _
          (mem_jsSetDedup_of_mem (List.mem_filter.mpr ⟨h, by simp [hxy]⟩))
termination_by l => l.length
decreasing_by
  simp only [List.length_cons]
  exact Nat.lt_succ_of_le (ys.length_filter_le _)

theorem mem_jsSetDedup_iff {x : String} {l : List String} :
    x ∈ jsSetDedup l ↔ x ∈ l :=
  ⟨mem_of_mem_jsSetDedup, mem_jsSetDedup_of_mem⟩

theorem jsSetDedup_nodup : ∀ (l : List String), (jsSetDedup l).Nodup
  | [] => by simp [jsSetDedup, jsSetDedupAux]
  | y :: ys => by
    rw [jsSetDedup_cons]
    refine List.nodup_cons.mpr ⟨fun hmem => ?_, jsSetDedup_nodup _⟩
    have := List.mem_filter.mp (mem_of_mem_jsSetDedup hmem)
    simp at this
termination_by l => l.length
decreasing_by
  simp only [List.length_cons]
  exact Nat.lt_succ_of_le (ys.length_filter_le _)

/-- Grouping a list by the distinct values of a key list that covers it
partitions it: the per-key filter lengths sum to the whole length. -/
theorem sum_filter_jsSetDedup :
    ∀ (ps : List String) (l : List ClassifiedImage),
      (∀ i ∈ l, i.path ∈ ps) →
      ((jsSetDedup ps).map
        (fun p => (l.filter (·.path = p)).length)).sum = l.length
  | [], l, hcov => by
    cases l with
    | nil => simp [jsSetDedup, jsSetDedupAux]
    | cons i l => exact absurd (hcov i (List.mem_cons_self i l)) (by simp)
  | y :: ys, l, hcov => by
    rw [jsSetDedup_cons]
    simp only [List.map_cons, List.sum_cons]
    have hcongr : ∀ p ∈ jsSetDedup (ys.filter (· ≠ y)),
        (l.filter (·.path = p)).length
          = ((l.filter (fun i => !decide (i.path = y))).filter
              (·.path = p)).length := by
      intro p hp
      have hpy : p ≠ y := by
        have := List.mem_filter.mp (mem_of_mem_jsSetDedup hp)
        simpa using this.2
      rw [List.filter_comm]
      congr 1
      refine (List.filter_eq_self.mpr fun i hi => ?_).symm
      have : i.path = p := by simpa using List.of_mem_filter hi
      simp [this, hpy]
    rw [List.map_congr_left hcongr]
    rw [sum_filter_jsSetDedup (ys.filter (· ≠ y))
      (l.filter (fun i => !decide (i.path = y)))
      (by
        intro i hi
        obtain ⟨hil, hiy⟩ := List.mem_filter.mp hi
        have hmem := hcov i hil
        refine List.mem_filter.mpr ⟨?_, by simpa using hiy⟩
        rcases List.mem_cons.mp hmem with heq | h
        · exact absurd heq (by simpa using hiy)
        · exact h)]
    exact (@List.length_eq_length_filter_add _ l
      (fun i => decide (i.path = y))).symm
termination_by ps => ps.length
decreasing_by
  simp only [List.length_cons]
  exact Nat.lt_succ_of_le (ys.length_filter_le _)

theorem pushByCategory_sum_len (img : ClassifiedImage) :
    ∀ acc : List (String × List ClassifiedImage),
      ((pushByCategory acc img).map (fun g => g.2.length)).sum
        = (acc.map (fun g => g.2.length)).sum + 1
  | [] => by simp [pushByCategory]
  | g :: gs => by
    rw [pushByCategory]
    split
    · simp only [List.map_cons, List.sum_cons, List.length_append,
        List.length_cons, List.length_nil]
      omega
    · simp only [List.map_cons, List.sum_cons, pushByCategory_sum_len img gs]
      omega

theorem pushByCategory_sum_flagged (img : ClassifiedImage) :
    ∀ acc : List (String × List ClassifiedImage),
      ((pushByCategory acc img).map
        (fun g => (g.2.filter (·.needsReplacement)).length)).sum
        = (acc.map (fun g => (g.2.filter (·.needsReplacement)).length)).sum
          + (if img.needsReplacement then 1 else 0)
  | [] => by
    simp only [pushByCategory, List.map_cons, List.map_nil, List.sum_cons,
      List.sum_nil, List.filter]
    split <;> simp_all
  | g :: gs => by
    rw [pushByCategory]
    split
    · simp only [List.map_cons, List.sum_cons, List.filter_append]
      have : (List.filter (fun i => i.needsReplacement) [img]).length
          = (if img.needsReplacement then 1 else 0) := by
        simp only [List.filter]
        split <;> simp_all
      simp only [List.length_append, this]
      omega
    · simp only [List.map_cons, List.sum_cons, pushByCategory_sum_flagged img gs]
      omega

theorem groupFold_sum_len :
    ∀ (imgs : List ClassifiedImage) (acc : List (String × List ClassifiedImage)),
      ((imgs.foldl pushByCategory acc).map (fun g => g.2.length)).sum
        = (acc.map (fun g => g.2.length)).sum + imgs.length
  | [], acc => by simp
  | i :: imgs, acc => by
    simp only [List.foldl_cons, List.length_cons,
      groupFold_sum_len imgs (pushByCategory acc i), pushByCategory_sum_len]
    omega

theorem groupFold_sum_flagged :
    ∀ (imgs : List ClassifiedImage) (acc : List (String × List ClassifiedImage)),
      ((imgs.foldl pushByCategory acc).map
        (fun g => (g.2.filter (·.needsReplacement)).length)).sum
        = (acc.map (fun g => (g.2.filter (·.needsReplacement)).length)).sum
          + (imgs.filter (·.needsReplacement)).length
  | [], acc => by simp
  | i :: imgs, acc => by
    simp only [List.foldl_cons,
      groupFold_sum_flagged imgs (pushByCategory acc i),
      pushByCategory_sum_flagged, List.filter]
    split <;> (rename_i h; simp [h]; try omega)

/-- `find?` over a list whose prefix all fails the predicate returns the
first success. -/
theorem find?_append_first {α : Type} (p : α → Bool) :
    ∀ (l₁ : List α) (c : α) (l₂ : List α),
      (∀ x ∈ l₁, p x = false) → p c = true →
      (l₁ ++ c :: l₂).find? p = some c
  | [], c, l₂, _, hc => by
    rw [List.nil_append]
    exact List.find?_cons_of_pos _ hc
  | x :: l₁, c, l₂, h, hc => by
    rw [List.cons_append,
      List.find?_cons_of_neg _ (by simp [h x (List.mem_cons_self x l₁)])]
    exact find?_append_first p l₁ c l₂
      (fun y hy => h y (List.mem_cons_of_mem x hy)) hc

/-- Two sample classified references to one flagged path, from two documents
(used by concrete instantiations below). -/
def sampleA : ClassifiedImage :=
  { alt := "Admin Users", path := "images/admin-users.png"
    fullMatch := "![Admin Users](images/admin-users.png)"
    sourceFile := "docs/a.md", lineNumber := 3
    category := "admin", needsReplacement := true }

/-- A second reference to the same flagged path from another document. -/
def sampleB : ClassifiedImage :=
  { alt := "Admin Users", path := "images/admin-users.png"
    fullMatch := "![Admin Users](images/admin-users.png)"
    sourceFile := "docs/b.md", lineNumber := 7
    category := "admin", needsReplacement := true }

/-! ### The claims -/

/-- C4: a markdown inline image construct yields exactly one reference iff
its path does not start with `http://` or `https://` and its (lowercased)
extension is one of the recognized image extensions; otherwise it yields
none. The markdown-form references are exactly the kept matches, one each,
in order. -/
theorem md_refs_extension_filter (content filePath : String) :
    extractImageReferences content filePath
      = ((mdMatches content.toList).filter (fun m =>
            !(startsWithStr m.path.asString "http://" ||
              startsWithStr m.path.asString "https://") &&
            imageExts.contains (lowerStr (extname m.path.asString)))).map
          (mkMdRef content filePath)
        ++ htmlRefs content filePath := by
  unfold extractImageReferences
  rw [mdRefs_eq]
  rfl

/-- C3 (amended): an HTML img-tag match yields a reference iff its src does
not start with the prefix `http` — a strictly coarser test than the claimed
`http://`-or-`https://` check — and no extension filter is applied. -/
theorem html_refs_http_filter (content filePath : String) :
    extractImageReferences content filePath
      = mdRefs content filePath
        ++ ((htmlMatches content.toList).filter (fun m =>
              !(startsWithStr m.path.asString "http"))).map
            (mkHtmlRef content filePath) := by
  unfold extractImageReferences
  rw [htmlRefs_eq]
  rfl

/-- C3 counterexample: `httpx.png` starts with neither `http://` nor
`https://`, yet the img-tag occurrence produces no reference, because the
code discards any src starting with `http`. -/
theorem html_scheme_filter_counterexample :
    (htmlMatches ("<img src=" ++ "\"httpx.png\">").toList).map
        (fun m => (m.idx, m.path.asString)) = [(0, "httpx.png")]
    ∧ startsWithStr "httpx.png" "http://" = false
    ∧ startsWithStr "httpx.png" "https://" = false
    ∧ extractImageReferences ("<img src=" ++ "\"httpx.png\">") "d.md" = [] := by
  decide

/-- C2 (amended): the output is the markdown-loop references followed by the
HTML-loop references; within each loop the matches (hence the surviving
references) are in strictly increasing start-offset order, but an embedded
img tag occurring earlier in the text than a markdown image still comes
later in the output. -/
theorem extract_form_order (content filePath : String) :
    extractImageReferences content filePath
      = mdRefs content filePath ++ htmlRefs content filePath
    ∧ List.Pairwise (· < ·) ((mdMatches content.toList).map (·.idx))
    ∧ List.Pairwise (· < ·) ((htmlMatches content.toList).map (·.idx)) :=
  ⟨rfl, mdMatches_idx_pairwise _, htmlMatches_idx_pairwise _⟩

/-- C2 counterexample: the img tag at offset 0 yields the reference to
`a.png`, the markdown image at offset 18 the one to `b.png`; the output
lists `b.png` first, so an occurrence at an earlier offset does not come
earlier in the returned list. -/
theorem extract_document_order_counterexample :
    (htmlMatches ("<img src='a.png'>\n![b](b.png)").toList).map
        (fun m => (m.idx, m.path.asString)) = [(0, "a.png")]
    ∧ (mdMatches ("<img src='a.png'>\n![b](b.png)").toList).map
        (fun m => (m.idx, m.path.asString)) = [(18, "b.png")]
    ∧ (extractImageReferences "<img src='a.png'>\n![b](b.png)" "doc.md").map
        (fun r => r.path) = ["b.png", "a.png"] := by
  decide

/-- C5: every reference's `lineNumber` is 1 plus the number of newline
characters strictly before its match's first character (so a first-line
reference gets 1): the split-based computation equals the newline count plus
one, and the extractor's output line numbers are exactly those values at the
kept matches' offsets. -/
theorem ref_line_numbers (content filePath : String) :
    (∀ idx : Nat, lineNumberAt content.toList idx
        = (content.toList.take idx).count '\n' + 1)
    ∧ (extractImageReferences content filePath).map (fun r => r.lineNumber)
      = ((mdMatches content.toList).filter mdKeep).map
          (fun m => (content.toList.take m.idx).count '\n' + 1)
        ++ ((htmlMatches content.toList).filter htmlKeep).map
          (fun m => (content.toList.take m.idx).count '\n' + 1) := by
  refine ⟨fun idx => lineNumberAt_eq_count _ _, ?_⟩
  unfold extractImageReferences
  rw [mdRefs_eq, htmlRefs_eq, List.map_append, List.map_map, List.map_map]
  congr 1
  · exact List.map_congr_left fun m _ => lineNumberAt_eq_count _ _
  · exact List.map_congr_left fun m _ => lineNumberAt_eq_count _ _

/-- C9: every reference produced from the HTML img-tag form has empty alt
text — even when the tag carries an alt attribute — and any reference with
nonempty alt text comes from the markdown loop. -/
theorem html_alt_empty (content filePath : String) :
    (∀ r ∈ htmlRefs content filePath, r.alt = "")
    ∧ (∀ r ∈ extractImageReferences content filePath,
        r.alt ≠ "" → r ∈ mdRefs content filePath)
    ∧ (extractImageReferences ("<img alt=" ++ "\"Hello\" src=" ++ "\"a.png\">")
        "d.md").map (fun r => (r.alt, r.path)) = [("", "a.png")] := by
  refine ⟨?_, ?_, by decide⟩
  · intro r hr
    rw [htmlRefs_eq] at hr
    obtain ⟨m, -, rfl⟩ := List.mem_map.mp hr
    rfl
  · intro r hr hne
    rcases List.mem_append.mp hr with h | h
    · exact h
    · rw [htmlRefs_eq] at h
      obtain ⟨m, -, rfl⟩ := List.mem_map.mp h
      exact absurd rfl hne

/-- C9 witness: the img-tag reference extracted despite an alt attribute has
empty alt. -/
theorem html_alt_empty_witness :
    ({ alt := "", path := "a.png"
       fullMatch := "<img alt=" ++ "\"Hello\" src=" ++ "\"a.png\">"
       sourceFile := "d.md", lineNumber := 1 } : ImageReference).alt = "" :=
  (html_alt_empty ("<img alt=" ++ "\"Hello\" src=" ++ "\"a.png\">") "d.md").1
    _ (by decide)

/-- C6: the categorizer is total and deterministic: its value is always one
of the configured categories; when no category's pattern matches it returns
the catch-all `other`; and it returns the first category (in `CATEGORIES`
order) owning a matching pattern. -/
theorem categorize_first_match (path : String) :
    (categorizeScreenshot path = categorizeScreenshot path)
    ∧ categorizeScreenshot path ∈ CATEGORIES.map Prod.fst
    ∧ ((∀ c ∈ CATEGORIES, catMatches (lowerL path.toList) c = false) →
        categorizeScreenshot path = "other")
    ∧ (∀ (l₁ : List (String × List String)) c l₂,
        CATEGORIES = l₁ ++ c :: l₂ →
        catMatches (lowerL path.toList) c = true →
        (∀ c' ∈ l₁, catMatches (lowerL path.toList) c' = false) →
        categorizeScreenshot path = c.1) := by
  refine ⟨rfl, ?_, ?_, ?_⟩
  · simp only [categorizeScreenshot]
    cases hf : CATEGORIES.find? (catMatches (lowerL path.toList)) with
    | none => decide
    | some c => exact List.mem_map.mpr ⟨c, List.mem_of_find?_eq_some hf, rfl⟩
  · intro h
    simp only [categorizeScreenshot]
    have hn : CATEGORIES.find? (catMatches (lowerL path.toList)) = none :=
      List.find?_eq_none.mpr (fun x hx => by rw [h x hx]; simp)
    rw [hn]
  · intro l₁ c l₂ hcat hc hl₁
    simp only [categorizeScreenshot, hcat]
    rw [find?_append_first _ l₁ c l₂ hl₁ hc]

/-- C6 witness: a path matching the first category's first pattern is
categorized `cockpit`, and a path matching nothing falls to `other`. -/
theorem categorize_first_match_witness :
    categorizeScreenshot "images/cockpit-dashboard.png" = "cockpit"
    ∧ categorizeScreenshot "zzz" = "other" := by
  constructor
  · exact (categorize_first_match "images/cockpit-dashboard.png").2.2.2
      []
      ("cockpit", ["cockpit", "dashboard", "process-", "decision-", "batch",
                   "migration", "heatmap"])
      CATEGORIES.tail rfl (by decide) (by simp)
  · exact (categorize_first_match "zzz").2.2.1 (by decide)

/-- C7: the replacement flag is a function of the path alone — the
classification step assigns each reference exactly
`isCamundaSpecific(path)` — and it is true iff some legacy-branding pattern
matches the lowercased path; a path containing `cockpit` is flagged. -/
theorem flag_characterization (path : String) :
    (isCamundaSpecific path = true ↔
      ∃ pat ∈ CAMUNDA_PATTERNS, patTest (lowerL path.toList) pat = true)
    ∧ (∀ imgs : List ImageReference,
        (classifyImages imgs).map (fun i => i.needsReplacement)
          = imgs.map (fun i => isCamundaSpecific i.path))
    ∧ isCamundaSpecific "images/cockpit-dashboard.png" = true := by
  refine ⟨?_, ?_, by decide⟩
  · exact List.any_eq_true
  · intro imgs
    unfold classifyImages
    rw [List.map_map]
    rfl

/-- C1: in every generated report the per-category totals sum to the overall
total, each category's flagged subtotal is at most its total, and the
per-category flagged subtotals sum to the global flagged count. -/
theorem report_category_sums (imgs : List ClassifiedImage) :
    (((generateReport imgs).byCategoryStats.map (fun s => s.2.total)).sum
      = (generateReport imgs).total)
    ∧ (∀ s ∈ (generateReport imgs).byCategoryStats,
        s.2.needsReplacement ≤ s.2.total)
    ∧ (((generateReport imgs).byCategoryStats.map
          (fun s => s.2.needsReplacement)).sum
      = (generateReport imgs).needsReplacement) := by
  refine ⟨?_, ?_, ?_⟩
  · simp only [generateReport]
    rw [List.map_map]
    show ((groupByCategory imgs).map fun g => g.2.length).sum = imgs.length
    simpa [groupByCategory] using groupFold_sum_len imgs []
  · simp only [generateReport]
    intro s hs
    obtain ⟨g, hg, rfl⟩ := List.mem_map.mp hs
    exact List.length_filter_le _ _
  · simp only [generateReport]
    rw [List.map_map]
    show ((groupByCategory imgs).map
        fun g => (g.2.filter (·.needsReplacement)).length).sum
      = (imgs.filter (·.needsReplacement)).length
    simpa [groupByCategory] using groupFold_sum_flagged imgs []

/-- C1 witness: the invariants instantiated on a two-element report. -/
theorem report_category_sums_witness :
    (((generateReport [sampleA, sampleB]).byCategoryStats.map
        (fun s => s.2.total)).sum = (generateReport [sampleA, sampleB]).total)
    ∧ ("admin", ({ total := 2, needsReplacement := 2 } : CategoryStats)).2.needsReplacement
      ≤ ("admin", ({ total := 2, needsReplacement := 2 } : CategoryStats)).2.total :=
  ⟨(report_category_sums [sampleA, sampleB]).1,
   (report_category_sums [sampleA, sampleB]).2.1 _ (by decide)⟩

/-- C8: the replacement plan has exactly one entry per distinct flagged path
(no duplicates, and a path occurs in the plan iff some flagged reference has
it); each entry carries the category of the first flagged reference with
that path and one `(document, line)` location per flagged reference to it,
in encounter order. -/
theorem plan_entries_spec (imgs : List ClassifiedImage) :
    ((generateReport imgs).replacementPlan.map (fun e => e.imagePath)).Nodup
    ∧ (∀ p : String,
        p ∈ (generateReport imgs).replacementPlan.map (fun e => e.imagePath)
          ↔ p ∈ (imgs.filter (·.needsReplacement)).map (fun i => i.path))
    ∧ (∀ e ∈ (generateReport imgs).replacementPlan, ∃ first rest,
        (imgs.filter (·.needsReplacement)).filter (·.path = e.imagePath)
          = first :: rest
        ∧ e.category = first.category
        ∧ e.referencedIn
          = (first :: rest).map (fun r => (r.sourceFile, r.lineNumber))) := by
  have hplan : (generateReport imgs).replacementPlan.map (fun e => e.imagePath)
      = jsSetDedup ((imgs.filter (·.needsReplacement)).map (fun i => i.path)) := by
    simp only [generateReport]
    rw [List.map_map]
    exact List.map_id _
  refine ⟨?_, ?_, ?_⟩
  · rw [hplan]
    exact jsSetDedup_nodup _
  · intro p
    rw [hplan]
    exact mem_jsSetDedup_iff
  · intro e he
    simp only [generateReport] at he
    obtain ⟨p, hp, rfl⟩ := List.mem_map.mp he
    obtain ⟨r, hr, hrp⟩ := List.mem_map.mp (mem_of_mem_jsSetDedup hp)
    have hrmem : r ∈ (imgs.filter (·.needsReplacement)).filter (·.path = p) :=
      List.mem_filter.mpr ⟨hr, by simp [hrp]⟩
    cases hl : (imgs.filter (·.needsReplacement)).filter (·.path = p) with
    | nil => rw [hl] at hrmem; cases hrmem
    | cons first rest =>
      exact ⟨first, rest, rfl, rfl, rfl⟩

/-- C8 witness: two documents referencing one flagged path give one entry
with the first reference's category and both locations. -/
theorem plan_entries_spec_witness :
    ∃ first rest,
      (([sampleA, sampleB].filter (·.needsReplacement)).filter
        (·.path = "images/admin-users.png")) = first :: rest
      ∧ "admin" = first.category
      ∧ [("docs/a.md", 3), ("docs/b.md", 7)]
          = (first :: rest).map (fun r => (r.sourceFile, r.lineNumber)) :=
  (plan_entries_spec [sampleA, sampleB]).2.2
    { imagePath := "images/admin-users.png", category := "admin"
      referencedIn := [("docs/a.md", 3), ("docs/b.md", 7)] } (by decide)

/-- C10: the plan's location lists partition the flagged references — their
lengths sum to the global flagged count — and locations are not
deduplicated: two identical flagged occurrences yield two identical
location entries. -/
theorem plan_partition (imgs : List ClassifiedImage) :
    (((generateReport imgs).replacementPlan.map
        (fun e => e.referencedIn.length)).sum
      = (generateReport imgs).needsReplacement)
    ∧ (generateReport [sampleA, sampleA]).replacementPlan
      = [{ imagePath := "images/admin-users.png", category := "admin"
           referencedIn := [("docs/a.md", 3), ("docs/a.md", 3)] }] := by
  refine ⟨?_, by decide⟩
  simp only [generateReport]
  rw [List.map_map]
  show ((jsSetDedup ((imgs.filter (·.needsReplacement)).map
      (fun i => i.path))).map
      (fun p => (((imgs.filter (·.needsReplacement)).filter
        (·.path = p)).map (fun r => (r.sourceFile, r.lineNumber))).length)).sum
    = (imgs.filter (·.needsReplacement)).length
  have hlen : ∀ p ∈ jsSetDedup ((imgs.filter (·.needsReplacement)).map
      (fun i => i.path)),
      (((imgs.filter (·.needsReplacement)).filter (·.path = p)).map
        (fun r => (r.sourceFile, r.lineNumber))).length
        = ((imgs.filter (·.needsReplacement)).filter (·.path = p)).length :=
    fun p _ => List.length_map _ _
  rw [List.map_congr_left hlen]
  exact sum_filter_jsSetDedup _ _ (fun i hi => List.mem_map_of_mem _ hi)

end AnalyzeDocs
